import Mathlib

/-!
Verification development for the yahoo-crawler repository.

The crawl-state core of the repository is shallowly embedded here:
* the Link Log store of `AnchorCrawler` (`_filtered_link_generator`,
  `_save_links_incrementally`, `_load_last_written_key`,
  `read_persisted_links`, the flush check of `scroll_and_collect_links`);
* the comment-extraction loop of `CommentCrawler` (`_fetch_comments`,
  `_save_comments`, `process_links`, `get_link_generator`,
  `_wait_for_links`);
* the page-interaction helpers of `page_to_do_plugins`
  (`_safe_click`, `_click_buttons_once`).

File lines are modelled as `List Char`; the file itself as the list of its
lines.  Python dict iteration order is insertion order, so the in-memory
working set `self.links` is a `List (Str × Str)` whose keys are pairwise
distinct.
-/

namespace Yahoo

/-- A line of text (Python `str`), modelled as its character list. -/
abbrev Str := List Char

/-- `KEY_VALUE_SEPARATOR = "␟"` from `consts.py`. -/
def keyValueSeparator : Char := '␟'

/-- `ITEM_SEPARATOR = "␞"` from `consts.py`. -/
def itemSeparator : Char := '␞'

/-- The line written for one link record by `_save_links_incrementally`:
`f"{self.item_separator}{key}{self.key_value_separator}{value}\n"`
(the terminating newline is the line boundary of the file model). -/
def renderRecord (p : Str × Str) : Str :=
  itemSeparator :: (p.1 ++ keyValueSeparator :: p.2)

/-- `AnchorCrawler._filtered_link_generator`: starting from
`last_written_key`, yield the not-yet-written key/value pairs.  When the
cursor is `none` (`last_written_key is None`) everything is yielded;
otherwise items are skipped up to and including the first item whose key
equals the cursor, and the remainder is yielded; if the cursor key never
occurs, nothing is yielded. -/
def filteredLinkGenerator (cursor : Option Str) (links : List (Str × Str)) :
    List (Str × Str) :=
  match cursor with
  | none => links
  | some c =>
    match links with
    | [] => []
    | (k, _) :: rest =>
      if k = c then rest else filteredLinkGenerator (some c) rest

/-- The spec's reading of the same filter: "only emitting records observed
after the cursor" — the records strictly after the first occurrence of the
cursor key (all records when there is no cursor). -/
def specAfterCursor (cursor : Option Str) (links : List (Str × Str)) :
    List (Str × Str) :=
  match cursor with
  | none => links
  | some c => (links.dropWhile (fun p => decide (p.1 ≠ c))).drop 1

/-- Result of a flush: the file contents (list of lines) and the resume
cursor `last_written_key`. -/
structure SaveResult where
  file : List Str
  cursor : Option Str
deriving DecidableEq, Repr

/-- The write loop inside `_save_links_incrementally`: append one framed
line per record, setting `last_written_key` to each key as it is written. -/
def writeRecords (file : List Str) (cursor : Option Str) :
    List (Str × Str) → SaveResult
  | [] => ⟨file, cursor⟩
  | (k, v) :: rest => writeRecords (file ++ [renderRecord (k, v)]) (some k) rest

/-- `AnchorCrawler._save_links_incrementally` (successful run): consume
`_filtered_link_generator()` — whose starting point is the cursor read
before any write of this call — appending each record to the output file
and advancing `last_written_key`. -/
def saveLinksIncrementally (file : List Str) (cursor : Option Str)
    (links : List (Str × Str)) : SaveResult :=
  writeRecords file cursor (filteredLinkGenerator cursor links)

/-- `AnchorCrawler._save_links_incrementally` when the write of record
number `failAt` (0-based) raises an I/O error: the `except` block logs the
error and the call returns normally, keeping the file growth and cursor
advance of the records already written.  The in-memory `self.links` is not
touched by the call. -/
def saveLinksWithFailure (file : List Str) (cursor : Option Str)
    (links : List (Str × Str)) (failAt : Nat) : SaveResult :=
  writeRecords file cursor ((filteredLinkGenerator cursor links).take failAt)

/-! ### Line parsing (`read_persisted_links`, `_load_last_written_key`) -/

/-- Python `str.strip()`: remove whitespace from both ends of a line. -/
def pyStrip (l : Str) : Str :=
  ((l.dropWhile Char.isWhitespace).reverse.dropWhile Char.isWhitespace).reverse

/-- `line[len(self.item_separator):]` applied when
`line.startswith(self.item_separator)` (the separator is one character). -/
def stripLeadingItemSep : Str → Str
  | [] => []
  | c :: rest => if c = itemSeparator then rest else c :: rest

/-- Python `line.split(sep, 1)` when `sep in line`: split at the first
occurrence of `sep`; `none` when `sep` does not occur. -/
def splitOnce (sep : Char) : Str → Option (Str × Str)
  | [] => none
  | c :: rest =>
    if c = sep then some ([], rest)
    else
      match splitOnce sep rest with
      | none => none
      | some (a, b) => some (c :: a, b)

/-- The per-line treatment shared by `read_persisted_links` and
`_load_last_written_key`: strip the line, drop a leading item separator,
and split key from value at the first key-value separator; a line without
the key-value separator is malformed and yields nothing. -/
def parseLine (line : Str) : Option (Str × Str) :=
  splitOnce keyValueSeparator (stripLeadingItemSep (pyStrip line))

/-- Suffix `".txt"` used to select comment files. -/
def txtSuffix : Str := ['.', 't', 'x', 't']

/-- `{file.stem for file in self.comment_dir.iterdir() if file.suffix == ".txt"}`:
the completed-address set scanned from the comment directory, whose
entries are modelled as (stem, suffix) pairs. -/
def completedHashes (entries : List (Str × Str)) : List Str :=
  (entries.filter (fun e => decide (e.2 = txtSuffix))).map Prod.fst

/-- `AnchorCrawler.read_persisted_links`: when listing the comment
directory raises, the exception is caught, logged, and the generator ends
without yielding; otherwise, if the output file exists, each line is
parsed, malformed lines are skipped, and a parsed pair whose key is in the
completed set is skipped. -/
def readPersistedLinks (dirEntries : Except Unit (List (Str × Str)))
    (fileExists : Bool) (lines : List Str) : List (Str × Str) :=
  match dirEntries with
  | .error _ => []
  | .ok entries =>
    if fileExists then
      lines.filterMap (fun line =>
        match parseLine line with
        | none => none
        | some (k, v) =>
          if k ∈ completedHashes entries then none else some (k, v))
    else []

/-- `AnchorCrawler._load_last_written_key`: when the output file exists and
has at least one line, the last line is stripped, its leading item
separator removed, and — when the key-value separator occurs in it — the
key part becomes `last_written_key`; a missing or empty file leaves the
cursor `none`. -/
def loadLastWrittenKey (fileExists : Bool) (lines : List Str) : Option Str :=
  if fileExists then
    match lines.getLast? with
    | none => none
    | some lastLine =>
      match parseLine lastLine with
      | some (k, _) => some k
      | none => none
  else none

/-! ### Comment extraction (`CommentCrawler`) -/

/-- `COMMENT_BATCH_SIZE = 50` from `consts.py`. -/
def commentBatchSize : Nat := 50

/-- `CommentCrawler._save_comments`: open the comment file in append mode
(creating it when absent) and write one line per comment. -/
def saveComments (fileCreated : Bool) (fileLines : List String)
    (comments : List String) : Bool × List String :=
  match fileCreated with
  | _ => (true, fileLines ++ comments)

/-- What one iteration of the `_fetch_comments` loop observes from the
page: the texts matched by the comment selector, and whether the scroll
grew the page (`_scroll_page`). -/
structure IterObs where
  newComments : List String
  scrolled : Bool
deriving DecidableEq, Repr

/-- The loop state of `_fetch_comments` together with the comment file it
writes through `_save_comments`. -/
structure FetchState where
  comments : List String
  flushIdx : Nat
  retries : Nat
  fileCreated : Bool
  fileLines : List String
deriving DecidableEq, Repr

/-- One iteration of the `while retries < max_retries` loop of
`_fetch_comments`: compute the snippets not already collected
(`_is_new_content_loaded`), extend the collection, flush
`comments[flush_idx:]` when the collection grew by at least the batch
size since the last flush, then scroll; the retry counter increments
exactly when the iteration neither scrolled successfully nor added
snippets, and resets to zero otherwise. -/
def fetchStep (batch : Nat) (st : FetchState) (ob : IterObs) : FetchState :=
  let added := ob.newComments.filter (fun c => decide (c ∉ st.comments))
  let st1 :=
    if added.isEmpty then st
    else
      let comments := st.comments ++ added
      if comments ≠ [] ∧ batch ≤ comments.length - st.flushIdx then
        let s := saveComments st.fileCreated st.fileLines
          (comments.drop st.flushIdx)
        { st with comments := comments, flushIdx := comments.length,
                  fileCreated := s.1, fileLines := s.2 }
      else { st with comments := comments }
  { st1 with
    retries := if !ob.scrolled && added.isEmpty then st.retries + 1 else 0 }

/-- The `_fetch_comments` loop, driven by the finite list of observations
the page produces: the loop stops when the retry counter reaches
`maxRetries` (or when the external world produces nothing further). -/
def fetchLoop (batch maxRetries : Nat) : FetchState → List IterObs → FetchState
  | st, [] => st
  | st, ob :: obs =>
    if maxRetries ≤ st.retries then st
    else fetchLoop batch maxRetries (fetchStep batch st ob) obs

/-- The initial `_fetch_comments` state for a link whose comment file does
not yet exist. -/
def fetchInit : FetchState :=
  ⟨[], 0, 0, false, []⟩

/-- One link's turn inside `process_links`: run `_fetch_comments` (which
returns the full in-memory `comments` list) and then unconditionally call
`_save_comments(file_name, comments)` with that full list.  The result is
the comment file: (exists?, lines). -/
def processLink (batch maxRetries : Nat) (obs : List IterObs) :
    Bool × List String :=
  let st := fetchLoop batch maxRetries fetchInit obs
  saveComments st.fileCreated st.fileLines st.comments

/-- The comments harvested for a link: the collection `_fetch_comments`
returns after its loop ends. -/
def harvestedComments (batch maxRetries : Nat) (obs : List IterObs) :
    List String :=
  (fetchLoop batch maxRetries fetchInit obs).comments

/-! ### Worker partitioning (`get_link_generator`) -/

/-- The counter-passing loop of `CommentCrawler.get_link_generator`:
starting from index `i`, yield the items whose index satisfies
`i % total_instances == instance_id`. -/
def linkGenAux (total instanceId : Nat) : Nat → List α → List α
  | _, [] => []
  | i, a :: rest =>
    if i % total = instanceId then a :: linkGenAux total instanceId (i + 1) rest
    else linkGenAux total instanceId (i + 1) rest

/-- `CommentCrawler.get_link_generator`: filter the shared stream down to
the items this instance owns, enumerating from 0. -/
def getLinkGenerator (links : List α) (instanceId total : Nat) : List α :=
  linkGenAux total instanceId 0 links

/-- The ⟨index, item⟩ pairs assigned to one worker: an enumerated item at
index `i` belongs to worker `i % total`. -/
def assignedPairs (links : List α) (instanceId total : Nat) :
    List (Nat × α) :=
  links.enum.filter (fun p => decide (p.1 % total = instanceId))

/-! ### Discovery-loop flush check (`scroll_and_collect_links`) -/

/-- The link-collection phase of one `scroll_and_collect_links` iteration:
each candidate (already hashed and resolved) is inserted into the working
set unless its key is already present. -/
def collectCandidates : List (Str × Str) → List (Str × Str) →
    List (Str × Str)
  | links, [] => links
  | links, (k, v) :: rest =>
    collectCandidates
      (if k ∈ links.map Prod.fst then links else links ++ [(k, v)]) rest

/-- The incremental-save check of `scroll_and_collect_links`:
`if len(self.links) % self.batch_size == 0: await self._save_links_incrementally()`.
`true` exactly when a flush happens during this iteration. -/
def scrollIterationFlushes (batchSize : Nat) (links cands : List (Str × Str)) :
    Bool :=
  (collectCandidates links cands).length % batchSize == 0

/-! ### Page-interaction plugins (`page_to_do_plugins`) -/

/-- What the page lets us observe about one button matched by a plugin's
selector: the success of each click attempt `_safe_click` will make, and
whether `scroll_into_view_if_needed` resp. the post-click settling steps
(`wait_for_load_state`, `mouse.move`) raise. -/
structure ButtonObs where
  clickAttempts : List Bool
  scrollRaises : Bool
  settleRaises : Bool
deriving DecidableEq, Repr

/-- Whether `_safe_click` actually activates the button: some attempt's
click succeeds.  `_safe_click` catches the failure of every attempt and
returns normally either way, so it never raises into its caller. -/
def safeClickActivates (attempts : List Bool) : Bool :=
  attempts.any id

/-- Whether one button's body inside the `for button in buttons` loop of
`_click_buttons_once` completes without an exception, incrementing
`total_clicks`: scrolling into view and the settling steps must not raise;
the click itself cannot raise because `_safe_click` swallows its
failures. -/
def buttonCounted (b : ButtonObs) : Bool :=
  !b.scrollRaises && !b.settleRaises

/-- Whether the button was successfully activated: it was scrolled into
view and some click attempt succeeded. -/
def buttonActivated (b : ButtonObs) : Bool :=
  !b.scrollRaises && safeClickActivates b.clickAttempts

/-- `_click_buttons_once`: with no matched buttons return `False`;
otherwise process every button — a failure on one button is caught and the
loop continues with the rest — and return `total_clicks > 0`. -/
def clickButtonsOnce (buttons : List ButtonObs) : Bool :=
  if buttons.isEmpty then false
  else decide (0 < buttons.countP (fun b => buttonCounted b))

/-- How many of the matched buttons were successfully activated. -/
def activatedCount (buttons : List ButtonObs) : Nat :=
  buttons.countP (fun b => buttonActivated b)

/-! ### Idle timeout (`_wait_for_links`) -/

/-- The trailing wait loop of `_wait_for_links`:
`while now - start < timeout: sleep(1)` — returns how many one-second
sleeps run before the loop exits, counting from `elapsed` seconds already
spent since the idle clock was last reset. -/
def idleWait (timeout elapsed : Nat) : Nat :=
  if h : elapsed < timeout then idleWait timeout (elapsed + 1) + 1 else 0
termination_by timeout - elapsed
decreasing_by omega

/-- The yielding pass of `_wait_for_links`: forward every link of the
(finite) stream, resetting the idle clock after each one. -/
def yieldAll : List α → List α
  | [] => []
  | l :: rest => l :: yieldAll rest

/-- Observable outcome of one `_wait_for_links` run over a finite stream:
the links yielded, the number of one-second sleeps after the stream was
exhausted, and whether the timeout warning was logged before returning. -/
structure WaitRun (α : Type) where
  yielded : List α
  idleSleeps : Nat
  warned : Bool
deriving Repr

/-- `CommentCrawler._wait_for_links` over a finite stream: yield every
link in order; after the `async for` finishes, the idle clock — last reset
at the final yield — starts at 0 elapsed seconds, the wait loop sleeps
until `timeout` seconds passed, and the warning is logged before the
generator terminates. -/
def waitForLinks (links : List α) (timeout : Nat) : WaitRun α :=
  ⟨yieldAll links, idleWait timeout 0, true⟩

/-! ### Comment-save failure (`_save_comments`) -/

/-- The write loop of `_save_comments`, one line per comment. -/
def writeComments (fileLines : List String) : List String → List String
  | [] => fileLines
  | c :: rest => writeComments (fileLines ++ [c]) rest

/-- `_save_comments` when writing comment number `failAt` raises: the
handler logs and the call returns normally; the comments written before
the failure are durable (the file was created by the `open`), and the
in-memory comment list is not modified by the call. -/
def saveCommentsWithFailure (fileLines : List String)
    (comments : List String) (failAt : Nat) : List String :=
  writeComments fileLines (comments.take failAt)

/-! ### Concrete inputs used to evaluate the models -/

/-- Fifty pairwise-distinct snippet texts — as many as
`COMMENT_BATCH_SIZE`, so that one page view fills a whole batch. -/
def snippets50 : List String := (List.range 50).map (fun n => toString n)

/-- Page observations for one link: the first iteration shows fifty
snippets at once (triggering one incremental flush), then five iterations
with neither new snippets nor scroll growth (exhausting the retry budget),
then one more observation the loop never reaches. -/
def obsBatchThenIdle : List IterObs :=
  ⟨snippets50, false⟩ ::
    (List.replicate 5 ⟨[], false⟩ ++ [⟨["late"], true⟩])

/-- Three candidate links with pairwise-distinct keys found in a single
scroll iteration. -/
def candsThree : List (Str × Str) :=
  [(['a'], ['u']), (['b'], ['v']), (['c'], ['w'])]

/-- A button that scrolls into view and settles fine but whose click fails
on every `_safe_click` attempt. -/
def stubbornButton : ButtonObs := ⟨[false, false, false], false, false⟩

/-! ## Helper lemmas about the Link Log -/

theorem filteredLinkGenerator_eq_spec (cursor : Option Str)
    (links : List (Str × Str)) :
    filteredLinkGenerator cursor links = specAfterCursor cursor links := by
  cases cursor with
  | none => simp [filteredLinkGenerator, specAfterCursor]
  | some c =>
    induction links with
    | nil => rfl
    | cons p rest ih =>
      obtain ⟨k, v⟩ := p
      by_cases h : k = c
      · simp [filteredLinkGenerator, specAfterCursor, List.dropWhile_cons, h]
      · simp only [filteredLinkGenerator, specAfterCursor,
          List.dropWhile_cons] at ih ⊢
        simp [h, ih]

theorem filteredLinkGenerator_after_key (done : List (Str × Str)) (k v : Str)
    (rest : List (Str × Str))
    (hnd : ((done ++ (k, v) :: rest).map Prod.fst).Nodup) :
    filteredLinkGenerator (some k) (done ++ (k, v) :: rest) = rest := by
  induction done with
  | nil => simp [filteredLinkGenerator]
  | cons p done ih =>
    obtain ⟨k0, v0⟩ := p
    simp only [List.cons_append, List.map_cons, List.nodup_cons] at hnd
    have hk0 : ¬ k0 = k := by
      intro hkk
      exact hnd.1 (by
        rw [hkk]
        exact List.mem_map.mpr ⟨(k, v), by simp, rfl⟩)
    simp [filteredLinkGenerator, hk0, ih hnd.2]

theorem filteredLinkGenerator_getLast_key (links : List (Str × Str))
    (h : links ≠ []) (hnd : (links.map Prod.fst).Nodup) :
    filteredLinkGenerator (some (links.getLast h).1) links = [] := by
  obtain ⟨t, p, hsplit⟩ : ∃ t p, links = t ++ [p] :=
    ⟨links.dropLast, links.getLast h, (List.dropLast_append_getLast h).symm⟩
  subst hsplit
  obtain ⟨k, v⟩ := p
  rw [List.getLast_append]
  exact filteredLinkGenerator_after_key t k v [] hnd

theorem filteredLinkGenerator_isSuffix (cursor : Option Str)
    (links : List (Str × Str)) :
    filteredLinkGenerator cursor links <:+ links := by
  cases cursor with
  | none =>
    have hh : filteredLinkGenerator none links = links := by
      simp [filteredLinkGenerator]
    rw [hh]
  | some c =>
    induction links with
    | nil => simp [filteredLinkGenerator]
    | cons p rest ih =>
      obtain ⟨k, v⟩ := p
      by_cases h : k = c
      · subst h
        have hh : filteredLinkGenerator (some k) ((k, v) :: rest) = rest := by
          simp [filteredLinkGenerator]
        rw [hh]
        exact List.suffix_cons (k, v) rest
      · have hh : filteredLinkGenerator (some c) ((k, v) :: rest)
            = filteredLinkGenerator (some c) rest := by
          simp [filteredLinkGenerator, h]
        rw [hh]
        exact ih.trans (List.suffix_cons (k, v) rest)

theorem writeRecords_eq (recs : List (Str × Str)) :
    ∀ (file : List Str) (cursor : Option Str),
      writeRecords file cursor recs =
        ⟨file ++ recs.map renderRecord,
          recs.getLast?.elim cursor (fun p => some p.1)⟩ := by
  induction recs with
  | nil =>
    intro file cursor
    simp [writeRecords, Option.elim]
  | cons p rest ih =>
    intro file cursor
    obtain ⟨k, v⟩ := p
    rw [writeRecords, ih]
    cases rest with
    | nil => simp [Option.elim]
    | cons q qs =>
      simp [List.getLast?_cons_cons, List.getLast?_eq_getLast,
        List.append_assoc]

/-! ## Claim theorems -/

/-- C1: Flushing the in-memory working set to the Link Log is safe to call
multiple times.  For every working set and every prior resume cursor, a
flush appends exactly the records observed after the cursor, in iteration
order, and advances the cursor to the last record written.  When `k` new
records (`new`) were added past the cursor (which points at the last
record of the already-durable prefix `done`), a flush emits exactly those
`k` records, a repeated flush appends nothing, and no already-durable
record is re-appended. -/
theorem C1_append_batch_exact (file : List Str)
    (links done new : List (Str × Str)) (cursor : Option Str)
    (hnd : (links.map Prod.fst).Nodup)
    (hsplit : links = done ++ new)
    (hcur : (done = [] ∧ cursor = none) ∨
      ∃ h : done ≠ [], cursor = some (done.getLast h).1) :
    (∀ c : Option Str, (saveLinksIncrementally file c links).file =
      file ++ (specAfterCursor c links).map renderRecord) ∧
    (∀ c : Option Str, (saveLinksIncrementally file c links).cursor =
      (filteredLinkGenerator c links).getLast?.elim c (fun p => some p.1)) ∧
    filteredLinkGenerator cursor links = new ∧
    (saveLinksIncrementally file cursor links).file =
      file ++ new.map renderRecord ∧
    (∀ h : new ≠ [], (saveLinksIncrementally file cursor links).cursor =
      some ((new.getLast h).1)) ∧
    (new = [] → (saveLinksIncrementally file cursor links).cursor = cursor) ∧
    (saveLinksIncrementally (saveLinksIncrementally file cursor links).file
      (saveLinksIncrementally file cursor links).cursor links).file =
      (saveLinksIncrementally file cursor links).file := by
  subst hsplit
  have hgen : ∀ (c : Option Str) (file0 : List Str),
      saveLinksIncrementally file0 c (done ++ new) =
        ⟨file0 ++ (filteredLinkGenerator c (done ++ new)).map renderRecord,
          (filteredLinkGenerator c (done ++ new)).getLast?.elim c
            (fun p => some p.1)⟩ :=
    fun c file0 => writeRecords_eq _ file0 c
  have hfilter : filteredLinkGenerator cursor (done ++ new) = new := by
    rcases hcur with ⟨hdone, hcnone⟩ | ⟨hne, hcsome⟩
    · subst hcnone
      subst hdone
      simp [filteredLinkGenerator]
    · obtain ⟨t, p, hdsplit⟩ : ∃ t p, done = t ++ [p] :=
        ⟨done.dropLast, done.getLast hne,
          (List.dropLast_append_getLast hne).symm⟩
      subst hdsplit
      rw [hcsome, List.getLast_append]
      obtain ⟨k, v⟩ := p
      have hshape : (t ++ [(k, v)]) ++ new = t ++ (k, v) :: new := by simp
      rw [hshape] at hnd ⊢
      exact filteredLinkGenerator_after_key t k v new hnd
  have hidem : (saveLinksIncrementally
      (saveLinksIncrementally file cursor (done ++ new)).file
      (saveLinksIncrementally file cursor (done ++ new)).cursor
      (done ++ new)).file =
      (saveLinksIncrementally file cursor (done ++ new)).file := by
    rw [hgen cursor file]
    by_cases hnew : new = []
    · subst hnew
      rw [hgen]
      have hf : filteredLinkGenerator cursor done = [] := by
        simpa using hfilter
      simp [hf, Option.elim]
    · rw [hgen]
      have hlinks_ne : done ++ new ≠ [] := by
        intro h0
        rcases List.append_eq_nil.mp h0 with ⟨_, h2⟩
        exact hnew h2
      have hlast : (filteredLinkGenerator cursor (done ++ new)).getLast? =
          some ((done ++ new).getLast hlinks_ne) := by
        rw [hfilter, List.getLast?_eq_getLast new hnew]
        congr 1
        exact (List.getLast_append_of_ne_nil hnew).symm
      rw [hlast]
      have hdone2 : filteredLinkGenerator
          (some ((done ++ new).getLast hlinks_ne).1) (done ++ new) = [] :=
        filteredLinkGenerator_getLast_key (done ++ new) hlinks_ne hnd
      simp [Option.elim, hdone2]
  refine ⟨?_, ?_, hfilter, ?_, ?_, ?_, hidem⟩
  · intro c
    rw [hgen, ← filteredLinkGenerator_eq_spec]
  · intro c
    rw [hgen]
  · rw [hgen, hfilter]
  · intro h
    rw [hgen, hfilter, List.getLast?_eq_getLast new h]
    simp [Option.elim]
  · intro h
    rw [hgen, hfilter, h]
    simp [Option.elim]

/-- Witness for C1 at a concrete working set: with the cursor at key `a`
of `[(a, u), (b, v), (c, w)]`, a flush appends exactly the two framed
records for `(b, v)` and `(c, w)`. -/
theorem C1_append_batch_exact_witness :
    (saveLinksIncrementally [] (some ['a'])
      [(['a'], ['u']), (['b'], ['v']), (['c'], ['w'])]).file =
      [] ++ [((['b'] : Str), (['v'] : Str)),
        ((['c'] : Str), (['w'] : Str))].map renderRecord :=
  (C1_append_batch_exact []
    [(['a'], ['u']), (['b'], ['v']), (['c'], ['w'])]
    [(['a'], ['u'])] [(['b'], ['v']), (['c'], ['w'])] (some ['a'])
    (by decide) rfl (Or.inr ⟨by decide, by decide⟩)).2.2.2.1

theorem readPersistedLinks_eq_filter (entries : List (Str × Str))
    (lines : List Str) :
    readPersistedLinks (Except.ok entries) true lines =
      (lines.filterMap parseLine).filter
        (fun p => decide (p.1 ∉ completedHashes entries)) := by
  induction lines with
  | nil => rfl
  | cons l ls ih =>
    simp only [readPersistedLinks, if_true] at ih ⊢
    cases hp : parseLine l with
    | none => simp [List.filterMap_cons, hp, ih]
    | some kv =>
      obtain ⟨k, v⟩ := kv
      by_cases hc : k ∈ completedHashes entries
      · simp [List.filterMap_cons, List.filter_cons, hp, hc, ih]
      · simp [List.filterMap_cons, List.filter_cons, hp, hc, ih]

/-- C2: the replay read stream yields, in log order, exactly the
⟨address, URL⟩ pairs parsed from well-formed lines whose address is not in
the completed set derived from the Comment File directory; a malformed
line (no key-value separator) is skipped without aborting the stream, and
an address whose Comment File exists is never yielded. -/
theorem C2_replay_completion_gated (entries : List (Str × Str))
    (lines : List Str) (a u mal : Str)
    (ha : a ∈ completedHashes entries)
    (hmal : parseLine mal = none) :
    (readPersistedLinks (Except.ok entries) true lines =
      (lines.filterMap parseLine).filter
        (fun p => decide (p.1 ∉ completedHashes entries))) ∧
    ((a, u) ∉ readPersistedLinks (Except.ok entries) true lines) ∧
    (readPersistedLinks (Except.ok entries) true (mal :: lines) =
      readPersistedLinks (Except.ok entries) true lines) := by
  refine ⟨readPersistedLinks_eq_filter entries lines, ?_, ?_⟩
  · intro hmem
    rw [readPersistedLinks_eq_filter] at hmem
    have hgate := (List.mem_filter.mp hmem).2
    simp only [decide_eq_true_eq] at hgate
    exact hgate ha
  · rw [readPersistedLinks_eq_filter, readPersistedLinks_eq_filter,
      List.filterMap_cons, hmal]

/-- Witness for C2: with the Comment File `a.txt` present, the replay of a
log containing records for `a` and `c` plus one malformed line never
yields address `a`. -/
theorem C2_replay_completion_gated_witness :
    ((['a'] : Str), (['u'] : Str)) ∉ readPersistedLinks
      (Except.ok [((['a'] : Str), txtSuffix)]) true
      [renderRecord (['a'], ['u']), renderRecord (['c'], ['w']),
        ['h', 'i']] :=
  (C2_replay_completion_gated [((['a'] : Str), txtSuffix)]
    [renderRecord (['a'], ['u']), renderRecord (['c'], ['w']), ['h', 'i']]
    ['a'] ['u'] ['h', 'i'] (by decide) (by decide)).2.1

/-! ### Parsing well-formed records -/

theorem dropWhile_eq_self_of_head {α : Type} (p : α → Bool) (l : List α)
    (h : ∀ hne : l ≠ [], p (l.head hne) = false) : l.dropWhile p = l := by
  cases l with
  | nil => rfl
  | cons a t =>
    have ha := h (by simp)
    rw [List.head_cons] at ha
    simp [List.dropWhile_cons, ha]

theorem dropWhile_eq_self_append (p : Char → Bool) (l1 l2 : Str)
    (h1 : ∀ c ∈ l1, p c = false)
    (h2 : ∀ hne : l2 ≠ [], p (l2.head hne) = false) :
    (l1 ++ l2).dropWhile p = l1 ++ l2 := by
  cases l1 with
  | nil => simpa using dropWhile_eq_self_of_head p l2 h2
  | cons a t =>
    have ha := h1 a (by simp)
    simp [List.dropWhile_cons, ha]

theorem pyStrip_renderRecord (k v : Str)
    (hv : ∀ c ∈ v, c.isWhitespace = false) :
    pyStrip (renderRecord (k, v)) = renderRecord (k, v) := by
  have hfront : (renderRecord (k, v)).dropWhile Char.isWhitespace
      = renderRecord (k, v) := by
    apply dropWhile_eq_self_of_head
    intro hne
    have hh : (renderRecord (k, v)).head hne = itemSeparator := by
      simp [renderRecord]
    rw [hh]
    decide
  have hrevshape : (renderRecord (k, v)).reverse
      = v.reverse ++ (keyValueSeparator :: (k.reverse ++ [itemSeparator])) := by
    simp [renderRecord]
  have hback : (renderRecord (k, v)).reverse.dropWhile Char.isWhitespace
      = (renderRecord (k, v)).reverse := by
    rw [hrevshape]
    apply dropWhile_eq_self_append
    · intro c hc
      exact hv c (List.mem_reverse.mp hc)
    · intro hne
      rw [List.head_cons]
      decide
  unfold pyStrip
  rw [hfront, hback, List.reverse_reverse]

theorem splitOnce_key (sep : Char) (k v : Str) (hk : sep ∉ k) :
    splitOnce sep (k ++ sep :: v) = some (k, v) := by
  induction k with
  | nil => simp [splitOnce]
  | cons c t ih =>
    have hc : ¬ c = sep := by
      intro h
      exact hk (List.mem_cons.mpr (Or.inl h.symm))
    have ht : sep ∉ t := fun h => hk (List.mem_cons_of_mem c h)
    simp [splitOnce, hc, ih ht]

theorem parseLine_renderRecord (k v : Str)
    (hk : keyValueSeparator ∉ k)
    (hv : ∀ c ∈ v, c.isWhitespace = false) :
    parseLine (renderRecord (k, v)) = some (k, v) := by
  unfold parseLine
  rw [pyStrip_renderRecord k v hv]
  have hstrip : stripLeadingItemSep (renderRecord (k, v))
      = k ++ keyValueSeparator :: v := by
    simp [stripLeadingItemSep, renderRecord]
  rw [hstrip]
  exact splitOnce_key keyValueSeparator k v hk

/-- C6: on construction, for a well-formed log of `m ≥ 1` records the
recovered resume cursor equals the address of the final record, and the
recovery depends only on the final line of the log (the extensional
content of "reads only the final record"); a missing or empty file leaves
the cursor at start-of-log (`none`), in which case a subsequent flush
emits from the beginning of the working set. -/
theorem C6_startup_recovery (recs : List (Str × Str)) (k v : Str)
    (l1 l2 : List Str) (links : List (Str × Str))
    (hlast : recs.getLast? = some (k, v))
    (hk : keyValueSeparator ∉ k)
    (hv : ∀ c ∈ v, c.isWhitespace = false)
    (heq : l1.getLast? = l2.getLast?) :
    loadLastWrittenKey true (recs.map renderRecord) = some k ∧
    loadLastWrittenKey false (recs.map renderRecord) = none ∧
    loadLastWrittenKey true [] = none ∧
    loadLastWrittenKey true l1 = loadLastWrittenKey true l2 ∧
    filteredLinkGenerator (loadLastWrittenKey true []) links = links := by
  refine ⟨?_, by simp [loadLastWrittenKey], by simp [loadLastWrittenKey],
    ?_, ?_⟩
  · have hml : (recs.map renderRecord).getLast?
        = some (renderRecord (k, v)) := by
      rw [List.getLast?_map, hlast]
      rfl
    simp [loadLastWrittenKey, hml, parseLine_renderRecord k v hk hv]
  · simp only [loadLastWrittenKey, heq]
  · simp [loadLastWrittenKey, filteredLinkGenerator]

/-- Witness for C6: recovering from a two-record log yields the key of the
second (final) record. -/
theorem C6_startup_recovery_witness :
    loadLastWrittenKey true
      ([(['a'], ['u']), (['b'], ['v'])].map renderRecord) = some ['b'] :=
  (C6_startup_recovery [(['a'], ['u']), (['b'], ['v'])] ['b'] ['v']
    [['x']] [['y'], ['x']] [(['c'], ['w'])]
    (by decide) (by decide) (by decide) (by decide)).1

/-- C3: after the extraction loop terminates — here through five
consecutive no-progress iterations — `process_links` performs a final
durable write before moving on, and a Comment File exists even with zero
comments; but the final write saves the *full* collected list, so the
fifty snippets already flushed incrementally are written a second time:
the file holds each snippet twice, contradicting the claim that flushed
snippets are not re-written. -/
theorem C3_final_write_duplicates_flushed :
    harvestedComments commentBatchSize 5 obsBatchThenIdle = snippets50 ∧
    (fetchLoop commentBatchSize 5 fetchInit obsBatchThenIdle).retries = 5 ∧
    (processLink commentBatchSize 5 obsBatchThenIdle).1 = true ∧
    (processLink commentBatchSize 5 obsBatchThenIdle).2
      = snippets50 ++ snippets50 ∧
    ((processLink commentBatchSize 5 obsBatchThenIdle).2.count
      (toString 0)) = 2 ∧
    processLink commentBatchSize 5 [] = (true, []) := by decide

theorem linkGenAux_eq (total w : Nat) (links : List α) :
    ∀ i : Nat, linkGenAux total w i links =
      ((links.enumFrom i).filter
        (fun p => decide (p.1 % total = w))).map Prod.snd := by
  induction links with
  | nil => intro i; rfl
  | cons a rest ih =>
    intro i
    by_cases h : i % total = w
    · simp [linkGenAux, List.enumFrom, List.filter_cons, h, ih]
    · simp [linkGenAux, List.enumFrom, List.filter_cons, h, ih]

/-- C4: the per-worker filter assigns the enumerated item at 0-based
index `i` to worker `i mod N` and to no other worker; the workers'
assigned sets are pairwise disjoint, every enumerated item is assigned to
some worker below `N`, and each worker's assigned items come from the
stream — the worker's yielded items are exactly its assigned pairs in
stream order. -/
theorem C4_partition_disjoint_complete (links : List α) (N w i : Nat)
    (a : α) (hN : 1 ≤ N) (hmem : (i, a) ∈ links.enum) :
    (getLinkGenerator links w N = (assignedPairs links w N).map Prod.snd) ∧
    ((i, a) ∈ assignedPairs links w N ↔ i % N = w) ∧
    (∀ w2, w2 ≠ i % N → (i, a) ∉ assignedPairs links w2 N) ∧
    (∃ u, u < N ∧ (i, a) ∈ assignedPairs links u N) ∧
    (∀ p ∈ assignedPairs links w N, p ∈ links.enum) := by
  have hmemiff : ∀ w2, (i, a) ∈ assignedPairs links w2 N ↔ i % N = w2 := by
    intro w2
    constructor
    · intro hmem2
      have := (List.mem_filter.mp hmem2).2
      simpa using this
    · intro hw2
      exact List.mem_filter.mpr ⟨hmem, by simpa using hw2⟩
  refine ⟨?_, hmemiff w, ?_, ?_, ?_⟩
  · show linkGenAux N w 0 links = _
    rw [linkGenAux_eq N w links 0]
    rfl
  · intro w2 hw2 hmem2
    exact hw2 ((hmemiff w2).mp hmem2).symm
  · exact ⟨i % N, Nat.mod_lt i hN, (hmemiff (i % N)).mpr rfl⟩
  · intro p hp
    exact List.mem_of_mem_filter hp

/-- Witness for C4: in a five-item stream shared by three workers, the
item at index 4 belongs to worker `4 mod 3 = 1`. -/
theorem C4_partition_disjoint_complete_witness :
    ((4 : Nat), (14 : Nat)) ∈ assignedPairs [10, 11, 12, 13, 14] 1 3 ↔
      4 % 3 = 1 :=
  (C4_partition_disjoint_complete [10, 11, 12, 13, 14] 3 1 4 14
    (by decide) (by decide)).2.1

/-- C5 counterexample: with batch threshold 2, a single scroll iteration
that grows the working set from 0 links to 3 links crosses the multiple
`1 * 2` of the batch size, yet the code's check
`len(self.links) % self.batch_size == 0` fails (`3 % 2 ≠ 0`) and no flush
occurs during that iteration. -/
theorem C5_crossing_without_flush :
    ([] : List (Str × Str)).length = 0 ∧
    (collectCandidates [] candsThree).length = 3 ∧
    (0 : Nat) < 1 * 2 ∧ 1 * 2 ≤ 3 ∧
    scrollIterationFlushes 2 [] candsThree = false := by decide

theorem collectCandidates_length_le (cands : List (Str × Str)) :
    ∀ links : List (Str × Str),
      links.length ≤ (collectCandidates links cands).length := by
  induction cands with
  | nil => intro links; simp [collectCandidates]
  | cons p rest ih =>
    intro links
    obtain ⟨k, v⟩ := p
    by_cases h : k ∈ links.map Prod.fst
    · simpa [collectCandidates, h] using ih links
    · have hgrow := ih (links ++ [(k, v)])
      simp only [collectCandidates, if_neg h]
      simp only [List.length_append, List.length_cons, List.length_nil]
        at hgrow
      omega

/-- C5 (amended): an incremental flush occurs in a scroll iteration if and
only if the working-set size after that iteration's collection is an exact
multiple of `batch_size`; growth past a multiple that does not land
exactly on one triggers no flush (the working set only ever grows). -/
theorem C5_flush_iff_exact_multiple (batchSize : Nat)
    (links cands : List (Str × Str)) (hb : 0 < batchSize) :
    (scrollIterationFlushes batchSize links cands = true ↔
      (collectCandidates links cands).length % batchSize = 0) ∧
    (scrollIterationFlushes batchSize links cands = true ↔
      batchSize ∣ (collectCandidates links cands).length) ∧
    (∀ m : Nat, (collectCandidates links cands).length = m * batchSize →
      scrollIterationFlushes batchSize links cands = true) ∧
    (collectCandidates links cands).length % batchSize < batchSize ∧
    links.length ≤ (collectCandidates links cands).length := by
  refine ⟨?_, ?_, ?_, Nat.mod_lt _ hb, collectCandidates_length_le cands links⟩
  · simp [scrollIterationFlushes]
  · rw [Nat.dvd_iff_mod_eq_zero]
    simp [scrollIterationFlushes]
  · intro m hm
    simp [scrollIterationFlushes, hm, Nat.mul_mod_left]

/-- Witness for C5 (amended): with batch threshold 2 and two collected
links, the size is an exact multiple of the threshold, so the flush check
fires. -/
theorem C5_flush_iff_exact_multiple_witness :
    scrollIterationFlushes 2 []
      [(['a'], ['u']), (['b'], ['v'])] = true ↔
      (collectCandidates [] [(['a'], ['u']), (['b'], ['v'])]).length % 2
        = 0 :=
  (C5_flush_iff_exact_multiple 2 [] [(['a'], ['u']), (['b'], ['v'])]
    (by decide)).1

/-- C7: `_safe_click` catches the failure of every click attempt and
returns normally, so the per-button loop body of `_click_buttons_once`
completes and increments `total_clicks` even when no click succeeded: a
single matched button whose three click attempts all fail makes the
plugin return `True` although zero elements were activated (and,
conversely, a button that was clicked but whose settling step raises is
not counted, so the plugin returns `False` despite one activation).  The
no-abort half of the claim does hold: a failing button does not stop the
processing of the remaining buttons. -/
theorem C7_true_without_activation :
    clickButtonsOnce [stubbornButton] = true ∧
    activatedCount [stubbornButton] = 0 ∧
    safeClickActivates stubbornButton.clickAttempts = false ∧
    clickButtonsOnce [⟨[false, false, false], false, true⟩,
      ⟨[true], false, false⟩] = true ∧
    clickButtonsOnce [⟨[true], false, true⟩] = false ∧
    activatedCount [⟨[true], false, true⟩] = 1 := by decide

theorem yieldAll_eq (links : List α) : yieldAll links = links := by
  induction links with
  | nil => rfl
  | cons l rest ih => simp [yieldAll, ih]

theorem idleWait_eq_sub :
    ∀ (n timeout elapsed : Nat), timeout - elapsed = n →
      idleWait timeout elapsed = n := by
  intro n
  induction n with
  | zero =>
    intro t e h
    rw [idleWait]
    simp only [dif_neg (by omega : ¬ e < t)]
  | succ m ih =>
    intro t e h
    rw [idleWait]
    simp only [dif_pos (by omega : e < t)]
    rw [ih t (e + 1) (by omega)]

/-- C8: over a finite replay stream, the idle-timeout wrapper
`_wait_for_links` yields every link of the stream in order; once the
stream is exhausted, the trailing wait loop sleeps exactly `timeout`
one-second intervals after the idle clock was last reset, then logs the
timeout warning and terminates instead of blocking permanently. -/
theorem C8_finite_stream_terminates (links : List α) (timeout : Nat) :
    (waitForLinks links timeout).yielded = links ∧
    (waitForLinks links timeout).idleSleeps = timeout ∧
    (waitForLinks links timeout).warned = true := by
  refine ⟨yieldAll_eq links, ?_, rfl⟩
  show idleWait timeout 0 = timeout
  exact idleWait_eq_sub timeout timeout 0 (by omega)

theorem writeComments_eq (comments : List String) :
    ∀ fileLines : List String,
      writeComments fileLines comments = fileLines ++ comments := by
  induction comments with
  | nil => intro f; simp [writeComments]
  | cons c rest ih =>
    intro f
    rw [writeComments, ih]
    simp

theorem filteredLinkGenerator_resume (links : List (Str × Str))
    (cursor : Option Str) (j : Nat) (k0 v0 : Str)
    (hnd : (links.map Prod.fst).Nodup)
    (hlast : ((filteredLinkGenerator cursor links).take j).getLast?
      = some (k0, v0)) :
    filteredLinkGenerator (some k0) links
      = (filteredLinkGenerator cursor links).drop j := by
  obtain ⟨t, ht⟩ := filteredLinkGenerator_isSuffix cursor links
  obtain ⟨t2, htake⟩ := List.getLast?_eq_some_iff.mp hlast
  have hlinks : links = (t ++ t2) ++ (k0, v0) ::
      (filteredLinkGenerator cursor links).drop j := by
    calc links = t ++ filteredLinkGenerator cursor links := ht.symm
    _ = t ++ ((filteredLinkGenerator cursor links).take j ++
        (filteredLinkGenerator cursor links).drop j) := by
        rw [List.take_append_drop]
    _ = t ++ ((t2 ++ [(k0, v0)]) ++
        (filteredLinkGenerator cursor links).drop j) := by rw [htake]
    _ = (t ++ t2) ++ (k0, v0) ::
        (filteredLinkGenerator cursor links).drop j := by simp
  rw [hlinks] at hnd
  conv_lhs => rw [hlinks]
  have hdrop : (filteredLinkGenerator cursor links).drop j =
      (filteredLinkGenerator cursor ((t ++ t2) ++ (k0, v0) ::
        (filteredLinkGenerator cursor links).drop j)).drop j := by
    rw [← hlinks]
  exact filteredLinkGenerator_after_key (t ++ t2) k0 v0 _ hnd

/-- C9: when the write of record number `failAt` inside a flush raises,
the error is caught (the call returns instead of raising), the file holds
exactly the records written before the failure, the resume cursor is left
at the last record that did succeed, and — the in-memory working set being
untouched — a later flush attempt appends exactly the remaining records,
so the full filtered batch ends durable exactly once.  The comment-file
analogue `_save_comments` likewise keeps the comments written before the
failure and returns without raising. -/
theorem C9_partial_flush_keeps_state (file : List Str)
    (cursor : Option Str) (links : List (Str × Str)) (failAt : Nat)
    (hnd : (links.map Prod.fst).Nodup)
    (hfail : failAt < (filteredLinkGenerator cursor links).length) :
    ((saveLinksWithFailure file cursor links failAt).file =
      file ++ ((filteredLinkGenerator cursor links).take failAt).map
        renderRecord) ∧
    ((saveLinksWithFailure file cursor links failAt).cursor =
      ((filteredLinkGenerator cursor links).take failAt).getLast?.elim
        cursor (fun p => some p.1)) ∧
    ((filteredLinkGenerator cursor links).drop failAt ≠ []) ∧
    ((saveLinksIncrementally
      (saveLinksWithFailure file cursor links failAt).file
      (saveLinksWithFailure file cursor links failAt).cursor links).file =
      file ++ (filteredLinkGenerator cursor links).map renderRecord) ∧
    (∀ (fls cs : List String) (j : Nat),
      saveCommentsWithFailure fls cs j = fls ++ cs.take j) := by
  have hw := writeRecords_eq ((filteredLinkGenerator cursor links).take
    failAt) file cursor
  refine ⟨by rw [saveLinksWithFailure, hw], by rw [saveLinksWithFailure, hw],
    ?_, ?_, ?_⟩
  · intro hdrop
    have hlen := congrArg List.length hdrop
    rw [List.length_drop] at hlen
    simp only [List.length_nil] at hlen
    omega
  · rw [saveLinksWithFailure, hw]
    cases hL : ((filteredLinkGenerator cursor links).take failAt).getLast?
      with
    | none =>
      have htake0 : (filteredLinkGenerator cursor links).take failAt = [] :=
        List.getLast?_eq_none_iff.mp hL
      rw [saveLinksIncrementally, writeRecords_eq]
      simp [htake0, Option.elim]
    | some p =>
      obtain ⟨k0, v0⟩ := p
      have hres := filteredLinkGenerator_resume links cursor failAt k0 v0
        hnd hL
      rw [saveLinksIncrementally, writeRecords_eq]
      simp only [Option.elim, hres]
      rw [List.append_assoc, ← List.map_append, List.take_append_drop]
  · intro fls cs j
    rw [saveCommentsWithFailure, writeComments_eq]

/-- Witness for C9: with no prior cursor and a three-record working set,
a flush whose second write (index 1) fails leaves exactly the first
record durable and the cursor at its key. -/
theorem C9_partial_flush_keeps_state_witness :
    (saveLinksWithFailure [] none
      [(['a'], ['u']), (['b'], ['v']), (['c'], ['w'])] 1).file =
      [] ++ ((filteredLinkGenerator none
        [(['a'], ['u']), (['b'], ['v']), (['c'], ['w'])]).take 1).map
        renderRecord :=
  (C9_partial_flush_keeps_state [] none
    [(['a'], ['u']), (['b'], ['v']), (['c'], ['w'])] 1
    (by decide) (by decide)).1

/-- C10: when enumerating the Comment File directory raises (for example
because it does not exist), the exception handler of
`read_persisted_links` catches and logs the error and the generator ends
before yielding anything: that pass's replay stream is empty instead of
raising, whatever the log file holds, so every persisted link is silently
treated as skippable by that reader call. -/
theorem C10_dir_error_yields_nothing (lines : List Str)
    (fileExists : Bool) :
    readPersistedLinks (Except.error ()) fileExists lines = [] := rfl

end Yahoo
